import Mathlib

/-!
Shallow embedding of the grid-binning and feature-generation core of the
gird-map repository (server `index.mjs`, mirrored in `src/static/app.js`):
`buildGrid`, `binPointToCell`, `loadCsv`, the past/now/forward partition of
the date index, and `buildFeatures`.

Numbers are modelled as exact rationals (`ℚ`); JavaScript `Map`s keyed by
cell-id / date strings are modelled as functions into `Option`; a thrown
`TypeError` during ingestion is modelled as `none` propagating through the
row-processing fold.  The JavaScript template `r${row}c${col}` is modelled
by an explicit decimal rendering of the numerals.
-/

namespace GirdMap

/-! ### Decimal rendering of numerals (JS number-to-string for grid ids) -/

/-- Decimal digits of `n`, most significant first, via a fuel-bounded
structural recursion (`n` itself is always enough fuel). Empty for `n = 0`. -/
def natStrAux : ℕ → ℕ → List Char
  | 0, _ => []
  | fuel + 1, n => if n = 0 then [] else natStrAux fuel (n / 10) ++ [Nat.digitChar (n % 10)]

/-- Decimal rendering of a natural number, as JavaScript prints it. -/
def natStr (n : ℕ) : List Char := if n = 0 then ['0'] else natStrAux n n

/-- Decimal rendering of an integer, as JavaScript prints it. -/
def intStr : ℤ → List Char
  | .ofNat n => natStr n
  | .negSucc n => '-' :: natStr (n + 1)

/-- The cell id of the source: the string `r{row}c{col}` (`buildGrid`). -/
def cellId (r c : ℕ) : String := String.mk ('r' :: (natStr r ++ 'c' :: natStr c))

/-- The cell id rendered from possibly negative indices (`binPointToCell`
computes the column index unclamped, so it can fall outside `ℕ` only for
points left of the box, which the bounding-box guard already excludes). -/
def cellIdInt (r c : ℤ) : String := String.mk ('r' :: (intStr r ++ 'c' :: intStr c))

/-! ### The grid (`buildGrid` in the source) -/

/-- The loop epsilon `1e-12` of `buildGrid` (`lat < LAT_MAX - 1e-12`). -/
def eps : ℚ := 1 / 1000000000000

/-- Bounding box and degree steps of the grid.  In the source `dlat` and
`dlon` are derived from the positive resolution `GRID_KM` by
`DLAT = GRID_KM / 110.574` and `DLON = GRID_KM / (111.320 * cos(midLat))`;
the grid logic depends on them only through their positive values, so the
embedding takes the two steps as parameters. -/
structure Config where
  latMin : ℚ
  latMax : ℚ
  lonMin : ℚ
  lonMax : ℚ
  dlat : ℚ
  dlon : ℚ
deriving DecidableEq

/-- Number of iterations of the loop `for (x = lo; x < hi - 1e-12; x += step)`:
in exact arithmetic the loop variable at iteration `i` equals `lo + i*step`,
so the executed iterations are exactly those `i` with
`lo + i*step < hi - 1e-12` (see `lt_numSteps_iff`). -/
def numSteps (lo hi step : ℚ) : ℕ := (Int.ceil ((hi - eps - lo) / step)).toNat

/-- A grid cell as pushed by `buildGrid`. -/
structure Cell where
  id : String
  row : ℕ
  col : ℕ
  lat_min : ℚ
  lat_max : ℚ
  lon_min : ℚ
  lon_max : ℚ
  lat_c : ℚ
  lon_c : ℚ
deriving DecidableEq

/-- The cell pushed by `buildGrid` at indices `(r, c)`: in exact arithmetic
the accumulated loop variables equal `latMin + r*dlat` and `lonMin + c*dlon`,
and the upper bounds are `min(start + step, axisMax)`. -/
def mkCell (cfg : Config) (r c : ℕ) : Cell :=
  let lat := cfg.latMin + r * cfg.dlat
  let lon := cfg.lonMin + c * cfg.dlon
  let latTop := min (lat + cfg.dlat) cfg.latMax
  let lonTop := min (lon + cfg.dlon) cfg.lonMax
  { id := cellId r c, row := r, col := c,
    lat_min := lat, lat_max := latTop, lon_min := lon, lon_max := lonTop,
    lat_c := (lat + latTop) / 2, lon_c := (lon + lonTop) / 2 }

/-- The row count `nrows` returned by `buildGrid`. -/
def nlat (cfg : Config) : ℕ := numSteps cfg.latMin cfg.latMax cfg.dlat

/-- The column count of each grid row. -/
def nlon (cfg : Config) : ℕ := numSteps cfg.lonMin cfg.lonMax cfg.dlon

/-- Model of `buildGrid`: the row-major list of cells (rows ascending, then columns). -/
def buildGrid (cfg : Config) : List Cell :=
  (List.range (nlat cfg)).flatMap fun r =>
    (List.range (nlon cfg)).map fun c => mkCell cfg r c

/-- Model of `binPointToCell`: bounding-box guard, then row binning clamped to
`[0, NROWS-1]` by `Math.max(0, Math.min(NROWS-1, r))` and column binning left
unclamped. -/
def binPointToCell (cfg : Config) (lat lon : ℚ) : Option String :=
  if cfg.latMin ≤ lat ∧ lat ≤ cfg.latMax ∧ cfg.lonMin ≤ lon ∧ lon ≤ cfg.lonMax then
    some (cellIdInt (max 0 (min ((nlat cfg : ℤ) - 1) ⌊(lat - cfg.latMin) / cfg.dlat⌋))
      ⌊(lon - cfg.lonMin) / cfg.dlon⌋)
  else none

/-! ### Ingestion (`loadCsv` in the source) -/

/-- A per-cell date→value map (`gridMap.get(cid)` in the source). -/
abbrev PerCell : Type := String → Option ℚ

/-- The cell store: a JS `Map` keyed by cell id; an absent key yields
`undefined`, modelled as `none`. -/
abbrev GridMap : Type := String → Option PerCell

/-- Model of `new Map(CELLS.map(c => [c.id, new Map()]))`. -/
def initGridMap (cells : List Cell) : GridMap := fun cid =>
  if cid ∈ cells.map Cell.id then some (fun _ => none) else none

/-- Model of `per.set(d, v)`. -/
def setDate (per : PerCell) (d : String) (v : ℚ) : PerCell := fun d' =>
  if d' = d then some v else per d'

/-- Storing an updated per-cell map under `cid`. -/
def setCell (gm : GridMap) (cid : String) (per : PerCell) : GridMap := fun cid' =>
  if cid' = cid then some per else gm cid'

/-- The row schema decided from the header keys. -/
inductive Schema
  | cell
  | point
  | unknown
deriving DecidableEq

/-- ASCII lower-casing, the effect of JavaScript `toLowerCase` on the ASCII
header keys the detection inspects. -/
def lowerChar (c : Char) : Char :=
  if 'A' ≤ c ∧ c ≤ 'Z' then Char.ofNat (c.toNat + 32) else c

/-- Lower-cased header key. -/
def lowerStr (s : String) : String := String.mk (s.data.map lowerChar)

/-- Schema detection on the header keys of the first row (`loadCsv`). -/
def detectSchema (headers : List String) : Schema :=
  let hs := headers.map lowerStr
  if "cell_id" ∈ hs ∧ "value" ∈ hs then .cell
  else if ("lat" ∈ hs ∨ "lat_c" ∈ hs) ∧ ("lon" ∈ hs ∨ "lon_c" ∈ hs) ∧ "value" ∈ hs then
    .point
  else .unknown

/-- One parsed CSV record.  `date` is the trimmed date string (empty when the
field is missing or blank); `value`, `lat`, `lon` are `none` exactly when
`Number(...)` of the raw field is not finite (`lat` / `lon` already coalesced
with `lat_c` / `lon_c`); `cell_id` is the trimmed cell-id string. -/
structure Row where
  date : String
  value : Option ℚ
  cell_id : String
  lat : Option ℚ
  lon : Option ℚ
deriving DecidableEq

/-- Accumulator of the `data` handler: the `dateSet` in insertion order and
the mutable `gridMap`. -/
structure IngestState where
  dateSet : List String
  gridMap : GridMap

/-- Model of `dateSet.add(d)`: a JS `Set` keeps insertion order and drops duplicates. -/
def addDate (ds : List String) (d : String) : List String :=
  if d ∈ ds then ds else ds ++ [d]

/-- The `data` handler of `loadCsv` for one row, after the schema has been
decided.  The result is `none` exactly when the handler throws: in the point
branch `gridMap.get(cid)` is read without a `has` check, so a cell id absent
from the grid leaves `per` undefined and `per.has(d)` throws a `TypeError`. -/
def processRow (cfg : Config) (schema : Schema) (st : IngestState) (row : Row) :
    Option IngestState :=
  match schema with
  | .unknown => some st
  | .cell =>
    if row.date = "" then some st
    else
      let ds := addDate st.dateSet row.date
      match row.value with
      | none => some { st with dateSet := ds }
      | some v =>
        match st.gridMap row.cell_id with
        | some per =>
          some { dateSet := ds,
                 gridMap := setCell st.gridMap row.cell_id (setDate per row.date v) }
        | none => some { st with dateSet := ds }
  | .point =>
    if row.date = "" then some st
    else
      let ds := addDate st.dateSet row.date
      match row.value with
      | none => some { st with dateSet := ds }
      | some v =>
        match row.lat, row.lon with
        | some plat, some plon =>
          match binPointToCell cfg plat plon with
          | none => some { st with dateSet := ds }
          | some cid =>
            match st.gridMap cid with
            | none => none
            | some per =>
              let merged := match per row.date with
                | some old => (old + v) / 2
                | none => v
              some { dateSet := ds,
                     gridMap := setCell st.gridMap cid (setDate per row.date merged) }
        | _, _ => some { st with dateSet := ds }

/-- Folding the row handler over the stream; a thrown error aborts. -/
def runRows (cfg : Config) (schema : Schema) : IngestState → List Row → Option IngestState
  | st, [] => some st
  | st, row :: rest =>
    match processRow cfg schema st row with
    | none => none
    | some st' => runRows cfg schema st' rest

/-- Lexicographic comparison of strings by code unit, the order JavaScript
`Array.prototype.sort` applies to strings by default. -/
def charListLe : List Char → List Char → Bool
  | [], _ => true
  | _ :: _, [] => false
  | a :: as, b :: bs =>
    if a.toNat < b.toNat then true
    else if b.toNat < a.toNat then false
    else charListLe as bs

/-- String comparison used for the date index sort. -/
def strLe (a b : String) : Bool := charListLe a.data b.data

/-- Model of `Array.from(dateSet).sort()`. -/
def sortDates (ds : List String) : List String :=
  ds.insertionSort fun a b => strLe a b = true

/-- Model of `loadCsv`: schema detection on the first row, then the per-row fold.  The
schema is fixed once decided and only used on rows, so detecting it up front
on the shared header keys is equivalent. -/
def loadCsv (cfg : Config) (headers : List String) (rows : List Row) :
    Option IngestState :=
  runRows cfg (detectSchema headers) ⟨[], initGridMap (buildGrid cfg)⟩ rows

/-- Model of `datesISO`: the sorted date index after ingestion (empty if it threw). -/
def loadDates (cfg : Config) (headers : List String) (rows : List Row) : List String :=
  sortDates (((loadCsv cfg headers rows).map IngestState.dateSet).getD [])

/-- The value stored for `(cid, d)` after ingestion. -/
def loadValue (cfg : Config) (headers : List String) (rows : List Row)
    (cid d : String) : Option ℚ :=
  (loadCsv cfg headers rows).bind fun st => (st.gridMap cid).bind fun per => per d

/-- Whether ingestion completed without a thrown error. -/
def loadOk (cfg : Config) (headers : List String) (rows : List Row) : Bool :=
  (loadCsv cfg headers rows).isSome

/-! ### Feature generation (`buildFeatures` in the source) -/

/-- Model of `Number(x.toFixed(r))` with the default `COORD_DEC = 4`: rounding to four
decimal places. -/
def round4 (x : ℚ) : ℚ := (round (x * 10000) : ℤ) / 10000

/-- An emitted GeoJSON feature: polygon ring plus properties. -/
structure Feature where
  time : String
  cell_id : String
  row : ℕ
  col : ℕ
  center_lat : ℚ
  center_lon : ℚ
  value : ℚ
  ring : List (ℚ × ℚ)
deriving DecidableEq

/-- Model of `cellPolygon`: the closed 5-point ring of the cell's bounding box with
rounded coordinates, `(lon, lat)` pairs as in GeoJSON. -/
def cellPolygon (c : Cell) : List (ℚ × ℚ) :=
  [ (round4 c.lon_min, round4 c.lat_min), (round4 c.lon_max, round4 c.lat_min),
    (round4 c.lon_max, round4 c.lat_max), (round4 c.lon_min, round4 c.lat_max),
    (round4 c.lon_min, round4 c.lat_min) ]

/-- The metric of a feature query. -/
inductive Metric
  | value
  | delta
deriving DecidableEq

/-- Model of `Number(per.get(d) ?? 0)`: the stored value of cell `cid` at date `d`,
defaulting to 0.  The per-cell map of a grid cell always exists (`GRID_MAP`
is keyed by exactly the grid's cells), so the outer default is inert. -/
def cellValue (gm : GridMap) (cid d : String) : ℚ :=
  (((gm cid).getD fun _ => none) d).getD 0

/-- Model of `v0`, `vPrev` and `val` in `buildFeatures`: the previous date is the one
immediately before position `ti` in the entire date index `dates`, and for
`ti = 0` the subtrahend is the literal 0. -/
def metricVal (dates : List String) (gm : GridMap) (metric : Metric) (ti : ℕ)
    (cid : String) : ℚ :=
  let v0 := cellValue gm cid (dates.getD ti (""))
  let vPrev := if 0 < ti then cellValue gm cid (dates.getD (ti - 1) ("")) else 0
  match metric with
  | .value => v0
  | .delta => v0 - vPrev

/-- The threshold test of `buildFeatures`:
`minValue != null && metric === 'value' && !(val > minValue)`. -/
def dropByMin (metric : Metric) (minValue : Option ℚ) (val : ℚ) : Bool :=
  match minValue with
  | none => false
  | some m => decide (metric = Metric.value) && decide (¬ m < val)

/-- The body of the inner loop of `buildFeatures` for date position `ti` and
cell `c`: `none` when the cell is skipped by the stride decimation or dropped
by the threshold, otherwise the emitted feature. -/
def emitOne (dates : List String) (gm : GridMap) (metric : Metric) (stride : ℕ)
    (minValue : Option ℚ) (ti : ℕ) (c : Cell) : Option Feature :=
  if 1 < stride ∧ (c.row % stride ≠ 0 ∨ c.col % stride ≠ 0) then none
  else
    let val := metricVal dates gm metric ti c.id
    if dropByMin metric minValue val then none
    else some
      { time := dates.getD ti (""), cell_id := c.id, row := c.row, col := c.col,
        center_lat := round4 c.lat_c, center_lon := round4 c.lon_c,
        value := round4 val, ring := cellPolygon c }

/-- Model of `buildFeatures`: outer loop over the requested date positions, inner loop
over the grid cells in row-major order. -/
def buildFeatures (dates : List String) (gm : GridMap) (cells : List Cell)
    (idx : List ℕ) (metric : Metric) (stride : ℕ) (minValue : Option ℚ) :
    List Feature :=
  idx.flatMap fun ti => cells.filterMap (emitOne dates gm metric stride minValue ti)

/-! ### Temporal partition (`PAST_IDX`, `NOW_IDX`, `FWD_IDX` in `main`) -/

/-- Model of the filter chain producing `PAST_IDX`.
`toD` truncates a date to midnight of its calendar day; each date enters this
embedding as the integer day value `toD` yields, and the three filters compare
those day values exactly as the `Date` objects are compared. -/
def pastIdx (days : List ℤ) (ref : ℤ) : List ℕ :=
  (days.enum.filter fun x => decide (x.2 < ref)).map Prod.fst

/-- Indices whose calendar day equals the reference day
(`toD(x.d).getTime() === toD(TODAY).getTime()`). -/
def nowIdx (days : List ℤ) (ref : ℤ) : List ℕ :=
  (days.enum.filter fun x => decide (x.2 = ref)).map Prod.fst

/-- Indices whose calendar day is strictly after the reference day. -/
def fwdIdx (days : List ℤ) (ref : ℤ) : List ℕ :=
  (days.enum.filter fun x => decide (ref < x.2)).map Prod.fst

/-! ### Regions of the plane used to state the tiling properties -/

/-- Membership in the closed bounding box of the configuration. -/
def inBBox (cfg : Config) (p : ℚ × ℚ) : Prop :=
  cfg.latMin ≤ p.1 ∧ p.1 ≤ cfg.latMax ∧ cfg.lonMin ≤ p.2 ∧ p.2 ≤ cfg.lonMax

/-- Membership in the closed bounding box of a cell. -/
def inCellBox (c : Cell) (p : ℚ × ℚ) : Prop :=
  c.lat_min ≤ p.1 ∧ p.1 ≤ c.lat_max ∧ c.lon_min ≤ p.2 ∧ p.2 ≤ c.lon_max

/-- Membership in the open interior of a cell's bounding box. -/
def inCellInterior (c : Cell) (p : ℚ × ℚ) : Prop :=
  c.lat_min < p.1 ∧ p.1 < c.lat_max ∧ c.lon_min < p.2 ∧ p.2 < c.lon_max

/-! ### Concrete fixtures used by witnesses and counterexamples -/

/-- A 2×2-degree box with degree steps 1: a 2×2 grid. -/
def wCfg : Config := ⟨0, 2, 0, 2, 1, 1⟩

/-- A bounding box thinner than the loop epsilon on the latitude axis. -/
def cfgThin : Config := ⟨0, 1 / 10 ^ 13, 0, 1, 1, 1⟩

/-- A 1×2 grid: the longitude extent is an exact multiple of the step, so the
right edge `lon = 2` bins to the out-of-grid column 2. -/
def cfg4 : Config := ⟨0, 1, 0, 2, 1, 1⟩

/-- A 1×1 grid. -/
def pCfg : Config := ⟨0, 1, 0, 1, 1, 1⟩

/-- The unit cell `r0c0` of `wCfg` restricted to `[0,1]×[0,1]`. -/
def wCell : Cell := ⟨cellId 0 0, 0, 0, 0, 1, 0, 1, 1 / 2, 1 / 2⟩

/-- Two dates. -/
def wDates : List String := ["d1", "d2"]

/-- A dataset storing `1/50000` at `(r0c0, d1)` and `3` at `(r0c0, d2)`. -/
def wGm : GridMap := fun cid =>
  if cid = cellId 0 0 then
    some fun d => if d = "d1" then some (1 / 50000) else if d = "d2" then some 3 else none
  else none

/-- The feature emitted for `(d1, wCell)` from `wGm` with metric `value`. -/
def wFeat : Feature :=
  { time := "d1", cell_id := cellId 0 0, row := 0, col := 0,
    center_lat := round4 (1 / 2), center_lon := round4 (1 / 2),
    value := round4 (cellValue wGm (cellId 0 0) ("d1")), ring := cellPolygon wCell }

/-- An ingest state whose grid map holds the value 1 at `(r0c0, d1)`. -/
def pSt1 : IngestState :=
  ⟨["d1"], fun cid =>
    if cid = cellId 0 0 then some fun d => if d = "d1" then some 1 else none else none⟩

/-- An ingest state whose grid map holds an empty per-cell map at `r0c0`. -/
def cSt : IngestState :=
  ⟨[], fun cid => if cid = cellId 0 0 then some (fun _ => none) else none⟩

/-! ### Theorems -/

theorem natStrAux_eq_digits (fuel n : ℕ) (h : n ≤ fuel) :
    natStrAux fuel n = ((Nat.digits 10 n).reverse.map Nat.digitChar) := by
  induction fuel generalizing n with
  | zero =>
    interval_cases n
    simp [natStrAux]
  | succ fuel ih =>
    by_cases hn : n = 0
    · simp [natStrAux, hn]
    · have hd : Nat.digits 10 n = n % 10 :: Nat.digits 10 (n / 10) :=
        Nat.digits_def' (by norm_num) (Nat.pos_of_ne_zero hn)
      have hdiv : n / 10 ≤ fuel := by
        have h1 : n / 10 < n := Nat.div_lt_self (Nat.pos_of_ne_zero hn) (by norm_num)
        omega
      simp [natStrAux, hn, hd, ih _ hdiv]

theorem natStr_eq_digits (n : ℕ) (hn : n ≠ 0) :
    natStr n = ((Nat.digits 10 n).reverse.map Nat.digitChar) := by
  simp [natStr, hn, natStrAux_eq_digits n n le_rfl]

theorem digitChar_inj : ∀ a < 10, ∀ b < 10, Nat.digitChar a = Nat.digitChar b → a = b := by
  decide

theorem digitChar_isDigit : ∀ a < 10, (Nat.digitChar a).isDigit = true := by
  decide

theorem mem_natStr_isDigit (n : ℕ) : ∀ ch ∈ natStr n, ch.isDigit = true := by
  intro ch hch
  by_cases hn : n = 0
  · subst hn
    rw [show natStr 0 = ['0'] from rfl] at hch
    simp only [List.mem_singleton] at hch
    subst hch
    decide
  · rw [natStr_eq_digits n hn] at hch
    rcases List.mem_map.1 hch with ⟨d, hd, rfl⟩
    exact digitChar_isDigit d (Nat.digits_lt_base (by norm_num) (List.mem_reverse.1 hd))

theorem map_digitChar_inj :
    ∀ l₁ l₂ : List ℕ, (∀ x ∈ l₁, x < 10) → (∀ x ∈ l₂, x < 10) →
      l₁.map Nat.digitChar = l₂.map Nat.digitChar → l₁ = l₂ := by
  intro l₁
  induction l₁ with
  | nil =>
    intro l₂ _ _ h
    cases l₂ with
    | nil => rfl
    | cons b bs => simp at h
  | cons a as ih =>
    intro l₂ h₁ h₂ h
    cases l₂ with
    | nil => simp at h
    | cons b bs =>
      simp only [List.map_cons, List.cons.injEq] at h
      have ha : a = b :=
        digitChar_inj a (h₁ a (by simp)) b (h₂ b (by simp)) h.1
      have has : as = bs :=
        ih bs (fun x hx => h₁ x (by simp [hx])) (fun x hx => h₂ x (by simp [hx])) h.2
      rw [ha, has]

theorem natStr_injective {m n : ℕ} (h : natStr m = natStr n) : m = n := by
  by_cases hm : m = 0 <;> by_cases hn : n = 0
  · omega
  · exfalso
    rw [hm] at h
    rw [show natStr 0 = ['0'] from rfl] at h
    rw [natStr_eq_digits n hn] at h
    have hlen : (Nat.digits 10 n).length = 1 := by
      have := congrArg List.length h
      simpa using this.symm
    rcases List.length_eq_one.1 hlen with ⟨d, hd⟩
    rw [hd] at h
    have h' : '0' = Nat.digitChar d := by simpa using h
    have hd10 : d < 10 := Nat.digits_lt_base (by norm_num) (show d ∈ Nat.digits 10 n by simp [hd])
    have hd0 : d = 0 :=
      digitChar_inj d hd10 0 (by norm_num) (h'.symm.trans (by decide))
    have hn0 : n = 0 := by
      have := Nat.ofDigits_digits 10 n
      rw [hd, hd0] at this
      simpa [Nat.ofDigits] using this.symm
    exact hn hn0
  · exfalso
    rw [hn] at h
    rw [show natStr 0 = ['0'] from rfl] at h
    rw [natStr_eq_digits m hm] at h
    have hlen : (Nat.digits 10 m).length = 1 := by
      have := congrArg List.length h
      simpa using this
    rcases List.length_eq_one.1 hlen with ⟨d, hd⟩
    rw [hd] at h
    have h' : Nat.digitChar d = '0' := by simpa using h
    have hd10 : d < 10 := Nat.digits_lt_base (by norm_num) (show d ∈ Nat.digits 10 m by simp [hd])
    have hd0 : d = 0 :=
      digitChar_inj d hd10 0 (by norm_num) (h'.trans (by decide))
    have hm0 : m = 0 := by
      have := Nat.ofDigits_digits 10 m
      rw [hd, hd0] at this
      simpa [Nat.ofDigits] using this.symm
    exact hm hm0
  · rw [natStr_eq_digits m hm, natStr_eq_digits n hn] at h
    have hrev : (Nat.digits 10 m).reverse = (Nat.digits 10 n).reverse :=
      map_digitChar_inj _ _
        (fun x hx => Nat.digits_lt_base (by norm_num) (List.mem_reverse.1 hx))
        (fun x hx => Nat.digits_lt_base (by norm_num) (List.mem_reverse.1 hx)) h
    have hdig : Nat.digits 10 m = Nat.digits 10 n := by
      have := congrArg List.reverse hrev
      simpa using this
    have h1 := Nat.ofDigits_digits 10 m
    have h2 := Nat.ofDigits_digits 10 n
    rw [hdig] at h1
    rw [h2] at h1
    exact h1.symm

theorem c_not_mem_natStr (n : ℕ) : 'c' ∉ natStr n := by
  intro hc
  have := mem_natStr_isDigit n 'c' hc
  simp at this

/-- Splitting a character list around a delimiter that occurs in neither prefix. -/
theorem append_cons_c_inj :
    ∀ (A A' B B' : List Char), A ++ 'c' :: B = A' ++ 'c' :: B' →
      'c' ∉ A → 'c' ∉ A' → A = A' ∧ B = B' := by
  intro A
  induction A with
  | nil =>
    intro A' B B' h hA hA'
    cases A' with
    | nil => simpa using h
    | cons a' as' =>
      exfalso
      simp only [List.nil_append, List.cons_append, List.cons.injEq] at h
      exact hA' (by simp [← h.1])
  | cons a as ih =>
    intro A' B B' h hA hA'
    cases A' with
    | nil =>
      exfalso
      simp only [List.cons_append, List.nil_append, List.cons.injEq] at h
      exact hA (by simp [h.1])
    | cons a' as' =>
      simp only [List.cons_append, List.cons.injEq] at h
      have := ih as' B B' h.2 (fun hx => hA (by simp [hx])) (fun hx => hA' (by simp [hx]))
      exact ⟨by rw [h.1, this.1], this.2⟩

theorem cellId_inj {r c r' c' : ℕ} (h : cellId r c = cellId r' c') : r = r' ∧ c = c' := by
  have hdata : 'r' :: (natStr r ++ 'c' :: natStr c) = 'r' :: (natStr r' ++ 'c' :: natStr c') := by
    have := congrArg String.data h
    simpa [cellId] using this
  have htail : natStr r ++ 'c' :: natStr c = natStr r' ++ 'c' :: natStr c' := by
    simpa using hdata
  have hsplit := append_cons_c_inj _ _ _ _ htail (c_not_mem_natStr r) (c_not_mem_natStr r')
  exact ⟨natStr_injective hsplit.1, natStr_injective hsplit.2⟩

theorem cellIdInt_ofNat (r c : ℕ) : cellIdInt (r : ℤ) (c : ℤ) = cellId r c := rfl

theorem cellIdInt_nonneg (r c : ℤ) (hr : 0 ≤ r) (hc : 0 ≤ c) :
    cellIdInt r c = cellId r.toNat c.toNat := by
  rw [← cellIdInt_ofNat, Int.toNat_of_nonneg hr, Int.toNat_of_nonneg hc]

theorem eps_pos : 0 < eps := by norm_num [eps]

theorem lt_numSteps_iff {lo hi step : ℚ} (hs : 0 < step) (i : ℕ) :
    i < numSteps lo hi step ↔ lo + i * step < hi - eps := by
  unfold numSteps
  rw [Int.lt_toNat, Int.lt_ceil, lt_div_iff₀ hs]
  push_cast
  constructor <;> intro h <;> linarith

theorem numSteps_pos {lo hi step : ℚ} (hlh : lo < hi)
    (hr : hi ≤ lo + (numSteps lo hi step : ℚ) * step) : 0 < numSteps lo hi step := by
  rcases Nat.eq_zero_or_pos (numSteps lo hi step) with h0 | hpos
  · rw [h0] at hr
    push_cast at hr
    linarith
  · exact hpos

theorem mem_buildGrid {cfg : Config} {c : Cell} :
    c ∈ buildGrid cfg ↔ ∃ r < nlat cfg, ∃ k < nlon cfg, c = mkCell cfg r k := by
  simp only [buildGrid, List.mem_flatMap, List.mem_range, List.mem_map]
  constructor
  · rintro ⟨r, hr, k, hk, rfl⟩
    exact ⟨r, hr, k, hk, rfl⟩
  · rintro ⟨r, hr, k, hk, rfl⟩
    exact ⟨r, hr, k, hk, rfl⟩

/-- Coverage of one axis: when the generated steps reach the axis maximum,
the closed intervals of the subdivision cover `[lo, hi]` exactly. -/
theorem axis_cover {lo hi step : ℚ} (hs : 0 < step) (hlh : lo < hi)
    (hr : hi ≤ lo + (numSteps lo hi step : ℚ) * step) (x : ℚ) :
    (lo ≤ x ∧ x ≤ hi) ↔
      ∃ i < numSteps lo hi step,
        lo + i * step ≤ x ∧ x ≤ min (lo + i * step + step) hi := by
  constructor
  · rintro ⟨hx1, hx2⟩
    have hn1 : 0 < numSteps lo hi step := numSteps_pos hlh hr
    have hq0 : 0 ≤ (x - lo) / step := div_nonneg (by linarith) hs.le
    have hkz : (((⌊(x - lo) / step⌋).toNat : ℤ)) = ⌊(x - lo) / step⌋ :=
      Int.toNat_of_nonneg (Int.floor_nonneg.2 hq0)
    set k := (⌊(x - lo) / step⌋).toNat with hkdef
    have hkle : (k : ℚ) * step ≤ x - lo := by
      have h1 : ((k : ℤ) : ℚ) ≤ (x - lo) / step := by
        rw [hkz]
        exact Int.floor_le _
      have h2 : (k : ℚ) ≤ (x - lo) / step := by push_cast at h1; exact h1
      calc (k : ℚ) * step ≤ ((x - lo) / step) * step := by nlinarith
        _ = x - lo := div_mul_cancel₀ _ hs.ne'
    have hklt : x - lo < ((k : ℚ) + 1) * step := by
      have h1 : (x - lo) / step < ((k : ℤ) : ℚ) + 1 := by
        rw [hkz]
        exact Int.lt_floor_add_one _
      have h2 : (x - lo) / step < (k : ℚ) + 1 := by push_cast at h1; exact h1
      calc x - lo = ((x - lo) / step) * step := (div_mul_cancel₀ _ hs.ne').symm
        _ < ((k : ℚ) + 1) * step := by nlinarith
    by_cases hkn : k < numSteps lo hi step
    · exact ⟨k, hkn, by linarith, le_min (by linarith) hx2⟩
    · push_neg at hkn
      have hcastkn : ((numSteps lo hi step : ℕ) : ℚ) ≤ (k : ℚ) := by exact_mod_cast hkn
      have hxhi : hi ≤ x := by nlinarith
      have hxeq : x = hi := le_antisymm hx2 hxhi
      refine ⟨numSteps lo hi step - 1, by omega, ?_, ?_⟩
      · have h1 : lo + ((numSteps lo hi step - 1 : ℕ) : ℚ) * step < hi - eps :=
          (lt_numSteps_iff hs _).1 (by omega)
        have h2 : (0 : ℚ) < eps := eps_pos
        linarith
      · have h1 : (1 : ℕ) ≤ numSteps lo hi step := hn1
        have h3 : ((numSteps lo hi step - 1 : ℕ) : ℚ) = (numSteps lo hi step : ℚ) - 1 := by
          push_cast [Nat.cast_sub h1]
          ring
        refine le_min ?_ (le_of_eq hxeq)
        rw [h3]
        have h4 : lo + ((numSteps lo hi step : ℚ) - 1) * step + step =
            lo + (numSteps lo hi step : ℚ) * step := by ring
        rw [h4, hxeq]
        exact hr
  · rintro ⟨i, hin, hi1, hi2⟩
    have h0 : (0 : ℚ) ≤ (i : ℚ) * step := by positivity
    exact ⟨by linarith, le_trans hi2 (min_le_right _ _)⟩

/-- Disjointness of one axis: the open interiors of two distinct intervals of
the subdivision cannot share a point. -/
theorem axis_disjoint {lo hi step : ℚ} (hs : 0 < step) {i j : ℕ} (hij : i < j) (x : ℚ)
    (hxi : x < min (lo + i * step + step) hi) (hxj : lo + j * step < x) : False := by
  have h1 : x < lo + i * step + step := lt_of_lt_of_le hxi (min_le_left _ _)
  have h2 : ((i : ℚ) + 1) ≤ (j : ℚ) := by exact_mod_cast hij
  nlinarith

/-! ### Lemmas about the partition -/

theorem mem_filterIdx (p : ℤ → Prop) [DecidablePred p] :
    ∀ (l : List ℤ) (n i : ℕ),
      (i ∈ ((List.enumFrom n l).filter fun x => decide (p x.2)).map Prod.fst) ↔
        ∃ j : Fin l.length, i = n + (j : ℕ) ∧ p (l.get j) := by
  intro l
  induction l with
  | nil =>
    intro n i
    simp [List.enumFrom]
  | cons a restl ih =>
    intro n i
    rw [show List.enumFrom n (a :: restl) = (n, a) :: List.enumFrom (n + 1) restl from rfl,
      List.filter_cons]
    constructor
    · intro h
      by_cases hpa : p a
      · rw [if_pos (by simpa using hpa)] at h
        simp only [List.map_cons, List.mem_cons] at h
        rcases h with h | h
        · exact ⟨⟨0, by simp⟩, by simpa using h, by simpa using hpa⟩
        · rcases (ih (n + 1) i).1 h with ⟨j, hj1, hj2⟩
          refine ⟨⟨(j : ℕ) + 1, by simp only [List.length_cons]; omega⟩,
            by simp only [Fin.val_mk]; omega, ?_⟩
          simpa using hj2
      · rw [if_neg (by simpa using hpa)] at h
        rcases (ih (n + 1) i).1 h with ⟨j, hj1, hj2⟩
        refine ⟨⟨(j : ℕ) + 1, by simp only [List.length_cons]; omega⟩,
          by simp only [Fin.val_mk]; omega, ?_⟩
        simpa using hj2
    · rintro ⟨j, hj1, hj2⟩
      rcases j with ⟨jv, hjlt⟩
      cases jv with
      | zero =>
        have hpa : p a := by simpa using hj2
        rw [if_pos (by simpa using hpa)]
        simp only [List.map_cons, List.mem_cons]
        left
        simpa using hj1
      | succ jv' =>
        have hmem : i ∈ ((List.enumFrom (n + 1) restl).filter fun x =>
            decide (p x.2)).map Prod.fst := by
          refine (ih (n + 1) i).2
            ⟨⟨jv', by simp only [List.length_cons] at hjlt; omega⟩, ?_, ?_⟩
          · simp only [Fin.val_mk] at hj1 ⊢
            omega
          · simpa using hj2
        by_cases hpa : p a
        · rw [if_pos (by simpa using hpa)]
          simp only [List.map_cons, List.mem_cons]
          right
          exact hmem
        · rw [if_neg (by simpa using hpa)]
          exact hmem

theorem sorted_filterIdx (p : ℤ → Prop) [DecidablePred p] :
    ∀ (l : List ℤ) (n : ℕ),
      ((((List.enumFrom n l).filter fun x => decide (p x.2)).map Prod.fst).Sorted (· < ·)) ∧
      (∀ i ∈ ((List.enumFrom n l).filter fun x => decide (p x.2)).map Prod.fst, n ≤ i) := by
  intro l
  induction l with
  | nil =>
    intro n
    simp [List.enumFrom]
  | cons a restl ih =>
    intro n
    rw [show List.enumFrom n (a :: restl) = (n, a) :: List.enumFrom (n + 1) restl from rfl,
      List.filter_cons]
    rcases ih (n + 1) with ⟨hsorted, hge⟩
    by_cases hpa : p a
    · rw [if_pos (by simpa using hpa)]
      constructor
      · rw [List.map_cons]
        refine List.sorted_cons.2 ⟨fun b hb => ?_, hsorted⟩
        have := hge b hb
        omega
      · intro i hi
        rw [List.map_cons, List.mem_cons] at hi
        rcases hi with rfl | hi
        · exact le_rfl
        · have := hge i hi
          omega
    · rw [if_neg (by simpa using hpa)]
      exact ⟨hsorted, fun i hi => by have := hge i hi; omega⟩

theorem enum_eq_enumFrom_zero (l : List ℤ) : l.enum = List.enumFrom 0 l := rfl

theorem mkCell_row (cfg : Config) (r c : ℕ) : (mkCell cfg r c).row = r := rfl

theorem mkCell_col (cfg : Config) (r c : ℕ) : (mkCell cfg r c).col = c := rfl

theorem mkCell_id (cfg : Config) (r c : ℕ) : (mkCell cfg r c).id = cellId r c := rfl

theorem mkCell_lat_min (cfg : Config) (r c : ℕ) :
    (mkCell cfg r c).lat_min = cfg.latMin + r * cfg.dlat := rfl

theorem mkCell_lat_max (cfg : Config) (r c : ℕ) :
    (mkCell cfg r c).lat_max = min (cfg.latMin + r * cfg.dlat + cfg.dlat) cfg.latMax := rfl

theorem mkCell_lon_min (cfg : Config) (r c : ℕ) :
    (mkCell cfg r c).lon_min = cfg.lonMin + c * cfg.dlon := rfl

theorem mkCell_lon_max (cfg : Config) (r c : ℕ) :
    (mkCell cfg r c).lon_max = min (cfg.lonMin + c * cfg.dlon + cfg.dlon) cfg.lonMax := rfl

/-! ### Lemmas about feature generation -/

theorem mem_buildFeatures {dates : List String} {gm : GridMap} {cells : List Cell}
    {idx : List ℕ} {metric : Metric} {stride : ℕ} {minValue : Option ℚ} {f : Feature} :
    f ∈ buildFeatures dates gm cells idx metric stride minValue ↔
      ∃ ti ∈ idx, ∃ c ∈ cells, emitOne dates gm metric stride minValue ti c = some f := by
  simp [buildFeatures, List.mem_flatMap, List.mem_filterMap]

theorem emitOne_isSome_iff {dates : List String} {gm : GridMap} {metric : Metric}
    {stride : ℕ} {minValue : Option ℚ} {ti : ℕ} {c : Cell} :
    (emitOne dates gm metric stride minValue ti c).isSome = true ↔
      (¬ (1 < stride ∧ (c.row % stride ≠ 0 ∨ c.col % stride ≠ 0))
        ∧ dropByMin metric minValue (metricVal dates gm metric ti c.id) = false) := by
  unfold emitOne
  split
  · rename_i hcond
    simp [hcond]
  · rename_i hcond
    dsimp only
    split
    · rename_i hdrop
      simp [hcond, hdrop]
    · rename_i hdrop
      simp [hcond, Bool.not_eq_true _ ▸ hdrop]

theorem emitOne_some_fields {dates : List String} {gm : GridMap} {metric : Metric}
    {stride : ℕ} {minValue : Option ℚ} {ti : ℕ} {c : Cell} {f : Feature}
    (h : emitOne dates gm metric stride minValue ti c = some f) :
    f.time = dates.getD ti ("") ∧ f.cell_id = c.id ∧ f.row = c.row ∧ f.col = c.col ∧
      f.value = round4 (metricVal dates gm metric ti c.id) := by
  unfold emitOne at h
  split at h
  · simp at h
  · dsimp only at h
    split at h
    · simp at h
    · cases h
      exact ⟨rfl, rfl, rfl, rfl, rfl⟩

theorem emitOne_stride_skip {dates : List String} {gm : GridMap} {metric : Metric}
    {stride : ℕ} {minValue : Option ℚ} {ti : ℕ} {c : Cell}
    (h : 1 < stride ∧ (c.row % stride ≠ 0 ∨ c.col % stride ≠ 0)) :
    emitOne dates gm metric stride minValue ti c = none := by
  unfold emitOne
  rw [if_pos h]

/-! ### Claim theorems -/

/-- Claim C2: for every date index (entering as the calendar-day values the
source's `toD` yields) and every reference day, the three index lists
`PAST_IDX`, `NOW_IDX`, `FWD_IDX` contain exactly the positions whose day is
strictly before / equal to / strictly after the reference day, every position
of the index lies in exactly one of the three lists, and each list is
strictly increasing, preserving the ascending order of the date index. -/
theorem partition_complete_disjoint_ordered (days : List ℤ) (ref : ℤ) :
    (∀ i, (i ∈ pastIdx days ref ↔ ∃ j : Fin days.length, i = (j : ℕ) ∧ days.get j < ref)
      ∧ (i ∈ nowIdx days ref ↔ ∃ j : Fin days.length, i = (j : ℕ) ∧ days.get j = ref)
      ∧ (i ∈ fwdIdx days ref ↔ ∃ j : Fin days.length, i = (j : ℕ) ∧ ref < days.get j)) ∧
    (∀ i, i < days.length ↔
      (i ∈ pastIdx days ref ∨ i ∈ nowIdx days ref ∨ i ∈ fwdIdx days ref)) ∧
    (∀ i, ¬ (i ∈ pastIdx days ref ∧ i ∈ nowIdx days ref)
      ∧ ¬ (i ∈ pastIdx days ref ∧ i ∈ fwdIdx days ref)
      ∧ ¬ (i ∈ nowIdx days ref ∧ i ∈ fwdIdx days ref)) ∧
    ((pastIdx days ref).Sorted (· < ·) ∧ (nowIdx days ref).Sorted (· < ·)
      ∧ (fwdIdx days ref).Sorted (· < ·)) := by
  have hpast : ∀ i, i ∈ pastIdx days ref ↔
      ∃ j : Fin days.length, i = (j : ℕ) ∧ days.get j < ref := by
    intro i
    have h := mem_filterIdx (fun z => z < ref) days 0 i
    simpa [pastIdx, enum_eq_enumFrom_zero] using h
  have hnow : ∀ i, i ∈ nowIdx days ref ↔
      ∃ j : Fin days.length, i = (j : ℕ) ∧ days.get j = ref := by
    intro i
    have h := mem_filterIdx (fun z => z = ref) days 0 i
    simpa [nowIdx, enum_eq_enumFrom_zero] using h
  have hfwd : ∀ i, i ∈ fwdIdx days ref ↔
      ∃ j : Fin days.length, i = (j : ℕ) ∧ ref < days.get j := by
    intro i
    have h := mem_filterIdx (fun z => ref < z) days 0 i
    simpa [fwdIdx, enum_eq_enumFrom_zero] using h
  refine ⟨fun i => ⟨hpast i, hnow i, hfwd i⟩, ?_, ?_, ?_, ?_, ?_⟩
  · intro i
    constructor
    · intro hi
      rcases lt_trichotomy (days.get ⟨i, hi⟩) ref with h | h | h
      · exact Or.inl ((hpast i).2 ⟨⟨i, hi⟩, rfl, h⟩)
      · exact Or.inr (Or.inl ((hnow i).2 ⟨⟨i, hi⟩, rfl, h⟩))
      · exact Or.inr (Or.inr ((hfwd i).2 ⟨⟨i, hi⟩, rfl, h⟩))
    · rintro (h | h | h)
      · rcases (hpast i).1 h with ⟨j, rfl, _⟩
        exact j.isLt
      · rcases (hnow i).1 h with ⟨j, rfl, _⟩
        exact j.isLt
      · rcases (hfwd i).1 h with ⟨j, rfl, _⟩
        exact j.isLt
  · intro i
    refine ⟨?_, ?_, ?_⟩
    · rintro ⟨h1, h2⟩
      rcases (hpast i).1 h1 with ⟨j, hj, hjlt⟩
      rcases (hnow i).1 h2 with ⟨k, hk, hkeq⟩
      have hjk : j = k := Fin.ext (by omega)
      rw [hjk] at hjlt
      omega
    · rintro ⟨h1, h2⟩
      rcases (hpast i).1 h1 with ⟨j, hj, hjlt⟩
      rcases (hfwd i).1 h2 with ⟨k, hk, hkgt⟩
      have hjk : j = k := Fin.ext (by omega)
      rw [hjk] at hjlt
      omega
    · rintro ⟨h1, h2⟩
      rcases (hnow i).1 h1 with ⟨j, hj, hjeq⟩
      rcases (hfwd i).1 h2 with ⟨k, hk, hkgt⟩
      have hjk : j = k := Fin.ext (by omega)
      rw [hjk] at hjeq
      omega
  · have h := (sorted_filterIdx (fun z => z < ref) days 0).1
    simpa [pastIdx, enum_eq_enumFrom_zero] using h
  · have h := (sorted_filterIdx (fun z => z = ref) days 0).1
    simpa [nowIdx, enum_eq_enumFrom_zero] using h
  · have h := (sorted_filterIdx (fun z => ref < z) days 0).1
    simpa [fwdIdx, enum_eq_enumFrom_zero] using h

/-- Claim C9: the cells of any built grid have pairwise distinct ids, and the
cell sequence is in row-major order: row indices are non-decreasing, and
within equal rows column indices are non-decreasing. -/
theorem grid_ids_distinct_row_major (cfg : Config) :
    (buildGrid cfg).Pairwise fun a b =>
      a.id ≠ b.id ∧ a.row ≤ b.row ∧ (a.row = b.row → a.col ≤ b.col) := by
  unfold buildGrid
  rw [show (List.range (nlat cfg)).flatMap (fun r => (List.range (nlon cfg)).map
        fun c => mkCell cfg r c) = ((List.range (nlat cfg)).map fun r =>
        (List.range (nlon cfg)).map fun c => mkCell cfg r c).flatten by
      simp [List.flatMap]]
  rw [List.pairwise_flatten]
  constructor
  · intro l hl
    rcases List.mem_map.1 hl with ⟨r, _, rfl⟩
    rw [List.pairwise_map]
    refine List.Pairwise.imp ?_ (List.pairwise_lt_range _)
    intro c1 c2 hlt
    refine ⟨?_, le_of_eq rfl, fun _ => le_of_lt hlt⟩
    intro hid
    rw [mkCell_id, mkCell_id] at hid
    exact absurd (cellId_inj hid).2 (Nat.ne_of_lt hlt)
  · rw [List.pairwise_map]
    refine List.Pairwise.imp ?_ (List.pairwise_lt_range _)
    intro r1 r2 hlt x hx y hy
    rcases List.mem_map.1 hx with ⟨c1, _, rfl⟩
    rcases List.mem_map.1 hy with ⟨c2, _, rfl⟩
    refine ⟨?_, le_of_lt hlt, fun heq => absurd heq (Nat.ne_of_lt hlt)⟩
    intro hid
    rw [mkCell_id, mkCell_id] at hid
    exact absurd (cellId_inj hid).1 (Nat.ne_of_lt hlt)


theorem nlat_wCfg : nlat wCfg = 2 := by
  show numSteps 0 2 1 = 2
  unfold numSteps
  rw [show ((2 : ℚ) - eps - 0) / 1 = 2 - eps by ring]
  rw [show (⌈(2 : ℚ) - eps⌉ : ℤ) = 2 from by
    rw [Int.ceil_eq_iff]
    unfold eps
    norm_num]
  rfl

theorem nlon_wCfg : nlon wCfg = 2 := nlat_wCfg

theorem nlat_cfgThin : nlat cfgThin = 0 := by
  show numSteps 0 (1 / 10 ^ 13) 1 = 0
  unfold numSteps
  rw [Int.toNat_eq_zero, Int.ceil_le]
  unfold eps
  norm_num

/-- Claim C3 (amended): for a proper bounding box and positive steps, whenever
on each axis the generated steps reach the axis maximum (which the `1e-12`
epsilon in the loop bound can prevent), the grid tiles the box exactly: a
point lies in the box iff it lies in some cell's bounding box, distinct cells
have disjoint open interiors, and each cell's upper bound is
`min(start + step, axisMax)`, hence never exceeds the axis maximum. -/
theorem grid_tiles_bbox (cfg : Config) (hla : cfg.latMin < cfg.latMax)
    (hlo : cfg.lonMin < cfg.lonMax) (hda : 0 < cfg.dlat) (hdo : 0 < cfg.dlon)
    (hreachLat : cfg.latMax ≤ cfg.latMin + (nlat cfg : ℚ) * cfg.dlat)
    (hreachLon : cfg.lonMax ≤ cfg.lonMin + (nlon cfg : ℚ) * cfg.dlon) :
    (∀ p : ℚ × ℚ, inBBox cfg p ↔ ∃ c ∈ buildGrid cfg, inCellBox c p) ∧
    (∀ c₁ ∈ buildGrid cfg, ∀ c₂ ∈ buildGrid cfg, c₁ ≠ c₂ →
      ∀ p : ℚ × ℚ, ¬ (inCellInterior c₁ p ∧ inCellInterior c₂ p)) ∧
    (∀ c ∈ buildGrid cfg,
      c.lat_max = min (c.lat_min + cfg.dlat) cfg.latMax ∧
      c.lon_max = min (c.lon_min + cfg.dlon) cfg.lonMax ∧
      c.lat_max ≤ cfg.latMax ∧ c.lon_max ≤ cfg.lonMax) := by
  refine ⟨?_, ?_, ?_⟩
  · intro p
    constructor
    · rintro ⟨h1, h2, h3, h4⟩
      rcases (axis_cover hda hla hreachLat p.1).1 ⟨h1, h2⟩ with ⟨r, hr, hr1, hr2⟩
      rcases (axis_cover hdo hlo hreachLon p.2).1 ⟨h3, h4⟩ with ⟨k, hk, hk1, hk2⟩
      refine ⟨mkCell cfg r k, mem_buildGrid.2 ⟨r, hr, k, hk, rfl⟩, ?_, ?_, ?_, ?_⟩
      · rw [mkCell_lat_min]
        exact hr1
      · rw [mkCell_lat_max]
        exact hr2
      · rw [mkCell_lon_min]
        exact hk1
      · rw [mkCell_lon_max]
        exact hk2
    · rintro ⟨c, hc, hp⟩
      rcases mem_buildGrid.1 hc with ⟨r, hr, k, hk, rfl⟩
      rcases hp with ⟨h1, h2, h3, h4⟩
      rw [mkCell_lat_min] at h1
      rw [mkCell_lat_max] at h2
      rw [mkCell_lon_min] at h3
      rw [mkCell_lon_max] at h4
      have hlat := (axis_cover hda hla hreachLat p.1).2 ⟨r, hr, h1, h2⟩
      have hlon := (axis_cover hdo hlo hreachLon p.2).2 ⟨k, hk, h3, h4⟩
      exact ⟨hlat.1, hlat.2, hlon.1, hlon.2⟩
  · intro c₁ hc₁ c₂ hc₂ hne p hint
    rcases mem_buildGrid.1 hc₁ with ⟨r₁, hr₁, k₁, hk₁, rfl⟩
    rcases mem_buildGrid.1 hc₂ with ⟨r₂, hr₂, k₂, hk₂, rfl⟩
    rcases hint with ⟨⟨ha1, ha2, ha3, ha4⟩, hb1, hb2, hb3, hb4⟩
    rw [mkCell_lat_min] at ha1
    rw [mkCell_lat_max] at ha2
    rw [mkCell_lon_min] at ha3
    rw [mkCell_lon_max] at ha4
    rw [mkCell_lat_min] at hb1
    rw [mkCell_lat_max] at hb2
    rw [mkCell_lon_min] at hb3
    rw [mkCell_lon_max] at hb4
    have hne2 : r₁ ≠ r₂ ∨ k₁ ≠ k₂ := by
      by_contra hcon
      push_neg at hcon
      exact hne (by rw [hcon.1, hcon.2])
    rcases hne2 with h | h
    · rcases h.lt_or_lt with hlt | hlt
      · exact axis_disjoint hda hlt p.1 ha2 hb1
      · exact axis_disjoint hda hlt p.1 hb2 ha1
    · rcases h.lt_or_lt with hlt | hlt
      · exact axis_disjoint hdo hlt p.2 ha4 hb3
      · exact axis_disjoint hdo hlt p.2 hb4 ha3
  · intro c hc
    rcases mem_buildGrid.1 hc with ⟨r, hr, k, hk, rfl⟩
    refine ⟨?_, ?_, ?_, ?_⟩
    · rw [mkCell_lat_max, mkCell_lat_min]
    · rw [mkCell_lon_max, mkCell_lon_min]
    · rw [mkCell_lat_max]
      exact min_le_right _ _
    · rw [mkCell_lon_max]
      exact min_le_right _ _

/-- Claim C3, counterexample: the bounding box `lat ∈ [0, 10⁻¹³]`,
`lon ∈ [0, 1]` is proper (`latMin < latMax`, `lonMin < lonMax`) and the steps
are positive, yet the loop bound `lat < latMax - 1e-12` fails at the very
first row, so the grid is empty: the point `(0, 0)` lies in the bounding box
but in no cell, and the union of the cell boxes is not the bounding box. -/
theorem grid_tiles_bbox_counterexample :
    buildGrid cfgThin = [] ∧
    (cfgThin.latMin < cfgThin.latMax ∧ cfgThin.lonMin < cfgThin.lonMax ∧
      0 < cfgThin.dlat ∧ 0 < cfgThin.dlon) ∧
    inBBox cfgThin (0, 0) ∧
    ¬ ∃ c ∈ buildGrid cfgThin, inCellBox c (0, 0) := by
  have hg : buildGrid cfgThin = [] := by
    unfold buildGrid
    rw [nlat_cfgThin]
    rfl
  refine ⟨hg, by norm_num [cfgThin], by norm_num [inBBox, cfgThin], ?_⟩
  rw [hg]
  simp

/-- Witness for the amended C3 theorem: the 2×2 grid over `[0,2]×[0,2]` with
steps 1 satisfies all its hypotheses and hence tiles its box exactly. -/
theorem grid_tiles_bbox_witness :
    (∀ p : ℚ × ℚ, inBBox wCfg p ↔ ∃ c ∈ buildGrid wCfg, inCellBox c p) ∧
    (∀ c₁ ∈ buildGrid wCfg, ∀ c₂ ∈ buildGrid wCfg, c₁ ≠ c₂ →
      ∀ p : ℚ × ℚ, ¬ (inCellInterior c₁ p ∧ inCellInterior c₂ p)) ∧
    (∀ c ∈ buildGrid wCfg,
      c.lat_max = min (c.lat_min + wCfg.dlat) wCfg.latMax ∧
      c.lon_max = min (c.lon_min + wCfg.dlon) wCfg.lonMax ∧
      c.lat_max ≤ wCfg.latMax ∧ c.lon_max ≤ wCfg.lonMax) :=
  grid_tiles_bbox wCfg (by norm_num [wCfg]) (by norm_num [wCfg]) (by norm_num [wCfg])
    (by norm_num [wCfg]) (by rw [nlat_wCfg]; norm_num [wCfg])
    (by rw [nlon_wCfg]; norm_num [wCfg])


theorem dropByMin_none_eq_false (metric : Metric) (val : ℚ) :
    dropByMin metric none val = false := rfl

theorem dropByMin_delta_eq_false (minValue : Option ℚ) (val : ℚ) :
    dropByMin Metric.delta minValue val = false := by
  cases minValue <;> simp [dropByMin]

theorem dropByMin_value_some_eq_false_iff (m val : ℚ) :
    dropByMin Metric.value (some m) val = false ↔ m < val := by
  simp [dropByMin]

theorem emitOne_stride_one_minValue_none (dates : List String) (gm : GridMap)
    (metric : Metric) (ti : ℕ) (c : Cell) :
    emitOne dates gm metric 1 none ti c = some
      { time := dates.getD ti (""), cell_id := c.id, row := c.row, col := c.col,
        center_lat := round4 c.lat_c, center_lon := round4 c.lon_c,
        value := round4 (metricVal dates gm metric ti c.id), ring := cellPolygon c } := by
  unfold emitOne
  rw [if_neg (by simp)]
  dsimp only
  rw [if_neg (by rw [dropByMin_none_eq_false]; simp)]

/-- Claim C1 (amended): every feature generated by `buildFeatures` comes from
a requested date position `ti` and a grid cell `c`, and carries, for metric
`value`, the value stored in the dataset for that cell and date (defaulting to
0 when the cell has no observation for that date) rounded to four decimal
places before emission; for metric `delta`, the rounded difference between the
value at its date and the value at the date immediately preceding it in the
entire date index (not the requested subset); at the first date of the entire
index the subtrahend is the literal 0. -/
theorem feature_value_delta_semantics (dates : List String) (gm : GridMap)
    (cells : List Cell) (idx : List ℕ) (metric : Metric) (stride : ℕ)
    (minValue : Option ℚ) (f : Feature)
    (hf : f ∈ buildFeatures dates gm cells idx metric stride minValue) :
    ∃ ti ∈ idx, ∃ c ∈ cells, f.cell_id = c.id ∧ f.time = dates.getD ti ("") ∧
      (metric = Metric.value →
        f.value = round4 (cellValue gm c.id (dates.getD ti ("")))) ∧
      (metric = Metric.delta →
        (0 < ti → f.value = round4 (cellValue gm c.id (dates.getD ti (""))
            - cellValue gm c.id (dates.getD (ti - 1) ("")))) ∧
        (ti = 0 → f.value = round4 (cellValue gm c.id (dates.getD 0 ("")) - 0))) := by
  rcases mem_buildFeatures.1 hf with ⟨ti, hti, c, hc, hemit⟩
  rcases emitOne_some_fields hemit with ⟨h1, h2, _, _, h5⟩
  refine ⟨ti, hti, c, hc, h2, h1, ?_, ?_⟩
  · rintro rfl
    rw [h5]
    rfl
  · rintro rfl
    constructor
    · intro hti0
      rw [h5]
      unfold metricVal
      rw [if_pos hti0]
    · rintro rfl
      rw [h5]
      unfold metricVal
      norm_num

/-- Claim C1, counterexample: with the single date `d1` and the stored value
`1/50000 = 0.00002` for cell `r0c0`, the single emitted `value` feature
carries the value `0` — the stored value rounded to four decimal places — and
not the stored value itself, because `buildFeatures` emits
`Number(val.toFixed(4))`. -/
theorem feature_value_exact_counterexample :
    (buildFeatures wDates wGm [wCell] [0] Metric.value 1 none).map Feature.value
      = [0] ∧
    cellValue wGm (cellId 0 0) ("d1") = 1 / 50000 ∧ (1 / 50000 : ℚ) ≠ 0 := by
  have hcv : cellValue wGm (cellId 0 0) ("d1") = 1 / 50000 := rfl
  have hr : round4 (1 / 50000 : ℚ) = 0 := by
    unfold round4
    rw [show (1 / 50000 : ℚ) * 10000 = 1 / 5 by norm_num]
    rw [round_eq]
    norm_num [Int.floor_eq_iff]
  refine ⟨?_, hcv, by norm_num⟩
  rw [show buildFeatures wDates wGm [wCell] [0] Metric.value 1 none = [wFeat] from rfl]
  rw [show [wFeat].map Feature.value = [wFeat.value] from rfl]
  rw [show wFeat.value = round4 (cellValue wGm (cellId 0 0) ("d1")) from rfl, hcv, hr]

/-- Witness for the amended C1 theorem at the concrete dataset `wGm`. -/
theorem feature_value_delta_semantics_witness :
    ∃ ti ∈ [0], ∃ c ∈ [wCell], wFeat.cell_id = c.id ∧ wFeat.time = wDates.getD ti ("") ∧
      (Metric.value = Metric.value →
        wFeat.value = round4 (cellValue wGm c.id (wDates.getD ti ("")))) ∧
      (Metric.value = Metric.delta →
        (0 < ti → wFeat.value = round4 (cellValue wGm c.id (wDates.getD ti (""))
            - cellValue wGm c.id (wDates.getD (ti - 1) ("")))) ∧
        (ti = 0 → wFeat.value = round4 (cellValue wGm c.id (wDates.getD 0 ("")) - 0))) :=
  feature_value_delta_semantics wDates wGm [wCell] [0] Metric.value 1 none wFeat
    (by rw [show buildFeatures wDates wGm [wCell] [0] Metric.value 1 none = [wFeat]
          from rfl]
        simp)

/-- Claim C6: the `minValue` threshold applies only to metric `value`: with a
non-null `minValue = m` and metric `value`, a cell (surviving the stride
decimation) is emitted iff its computed value is strictly greater than `m`;
with metric `delta`, or with a null `minValue`, no feature is ever dropped by
this filter, whatever the sign of its value. -/
theorem minvalue_filter_semantics (dates : List String) (gm : GridMap)
    (stride : ℕ) (minValue : Option ℚ) (ti : ℕ) (c : Cell) :
    (∀ m : ℚ, minValue = some m →
      ((emitOne dates gm Metric.value stride minValue ti c).isSome = true ↔
        (¬ (1 < stride ∧ (c.row % stride ≠ 0 ∨ c.col % stride ≠ 0))
          ∧ m < metricVal dates gm Metric.value ti c.id))) ∧
    ((emitOne dates gm Metric.delta stride minValue ti c).isSome = true ↔
      ¬ (1 < stride ∧ (c.row % stride ≠ 0 ∨ c.col % stride ≠ 0))) ∧
    ((emitOne dates gm Metric.value stride none ti c).isSome = true ↔
      ¬ (1 < stride ∧ (c.row % stride ≠ 0 ∨ c.col % stride ≠ 0))) := by
  refine ⟨?_, ?_, ?_⟩
  · rintro m rfl
    rw [emitOne_isSome_iff, dropByMin_value_some_eq_false_iff]
  · rw [emitOne_isSome_iff, dropByMin_delta_eq_false]
    simp
  · rw [emitOne_isSome_iff, dropByMin_none_eq_false]
    simp

/-- Witness for C6 at a concrete dataset, stride and threshold. -/
theorem minvalue_filter_semantics_witness :
    (∀ m : ℚ, (some 1 : Option ℚ) = some m →
      ((emitOne wDates wGm Metric.value 1 (some 1) 0 wCell).isSome = true ↔
        (¬ (1 < 1 ∧ (wCell.row % 1 ≠ 0 ∨ wCell.col % 1 ≠ 0))
          ∧ m < metricVal wDates wGm Metric.value 0 wCell.id))) ∧
    ((emitOne wDates wGm Metric.delta 1 (some 1) 0 wCell).isSome = true ↔
      ¬ (1 < 1 ∧ (wCell.row % 1 ≠ 0 ∨ wCell.col % 1 ≠ 0))) ∧
    ((emitOne wDates wGm Metric.value 1 none 0 wCell).isSome = true ↔
      ¬ (1 < 1 ∧ (wCell.row % 1 ≠ 0 ∨ wCell.col % 1 ≠ 0))) :=
  minvalue_filter_semantics wDates wGm 1 (some 1) 0 wCell

/-- Claim C7: for every positive stride `k`, every emitted feature's cell
satisfies `row % k = 0` and `col % k = 0`; the stride test keeps exactly the
cells satisfying that condition, so no such cell is omitted by the stride
decimation; and with `stride = 1` (no threshold applied) every cell of the
grid is emitted for every requested date position. -/
theorem stride_decimation_semantics (dates : List String) (gm : GridMap)
    (cells : List Cell) (idx : List ℕ) (metric : Metric) (minValue : Option ℚ)
    (k : ℕ) (hk : 1 ≤ k) :
    (∀ f ∈ buildFeatures dates gm cells idx metric k minValue,
      f.row % k = 0 ∧ f.col % k = 0) ∧
    (∀ c : Cell, ¬ (1 < k ∧ (c.row % k ≠ 0 ∨ c.col % k ≠ 0)) ↔
      (c.row % k = 0 ∧ c.col % k = 0)) ∧
    (∀ ti ∈ idx, ∀ c ∈ cells,
      ∃ f ∈ buildFeatures dates gm cells idx metric 1 none,
        f.cell_id = c.id ∧ f.time = dates.getD ti ("")) := by
  have hpass : ∀ c : Cell, ¬ (1 < k ∧ (c.row % k ≠ 0 ∨ c.col % k ≠ 0)) ↔
      (c.row % k = 0 ∧ c.col % k = 0) := by
    intro c
    rcases Nat.lt_or_ge 1 k with h1k | h1k
    · constructor
      · intro hn
        by_contra hcon
        rcases Nat.eq_zero_or_pos (c.row % k) with hr | hr
        · rcases Nat.eq_zero_or_pos (c.col % k) with hcc | hcc
          · exact hcon ⟨hr, hcc⟩
          · exact hn ⟨h1k, Or.inr (by omega)⟩
        · exact hn ⟨h1k, Or.inl (by omega)⟩
      · rintro ⟨h1, h2⟩ ⟨_, hor⟩
        rcases hor with h | h
        · exact h h1
        · exact h h2
    · have hk1 : k = 1 := by omega
      subst hk1
      simp [Nat.mod_one]
  refine ⟨?_, hpass, ?_⟩
  · intro f hf
    rcases mem_buildFeatures.1 hf with ⟨ti, hti, c, hc, hemit⟩
    rcases emitOne_some_fields hemit with ⟨_, _, h3, h4, _⟩
    rw [h3, h4]
    by_contra hcon
    have hfail : 1 < k ∧ (c.row % k ≠ 0 ∨ c.col % k ≠ 0) := by
      by_contra hn
      exact hcon ((hpass c).1 hn)
    rw [emitOne_stride_skip hfail] at hemit
    exact Option.noConfusion hemit
  · intro ti hti c hc
    exact ⟨_, mem_buildFeatures.2
      ⟨ti, hti, c, hc, emitOne_stride_one_minValue_none dates gm metric ti c⟩, rfl, rfl⟩

/-- Witness for C7 at a concrete dataset with stride 2. -/
theorem stride_decimation_semantics_witness :
    (∀ f ∈ buildFeatures wDates wGm [wCell] [0] Metric.value 2 none,
      f.row % 2 = 0 ∧ f.col % 2 = 0) ∧
    (∀ c : Cell, ¬ (1 < 2 ∧ (c.row % 2 ≠ 0 ∨ c.col % 2 ≠ 0)) ↔
      (c.row % 2 = 0 ∧ c.col % 2 = 0)) ∧
    (∀ ti ∈ [0], ∀ c ∈ [wCell],
      ∃ f ∈ buildFeatures wDates wGm [wCell] [0] Metric.value 1 none,
        f.cell_id = c.id ∧ f.time = wDates.getD ti ("")) :=
  stride_decimation_semantics wDates wGm [wCell] [0] Metric.value none 2 (by norm_num)


/-- Claim C10: during cell-schema ingestion, a second accepted row with the
same cell id and date overwrites the earlier value — last write wins, no
averaging. -/
theorem cell_schema_last_write_wins (cfg : Config) (st : IngestState) (cid d : String)
    (v₁ v₂ : ℚ) (per : PerCell) (hgm : st.gridMap cid = some per) (hd : d ≠ "") :
    ∃ st₁ st₂,
      processRow cfg Schema.cell st ⟨d, some v₁, cid, none, none⟩ = some st₁ ∧
      processRow cfg Schema.cell st₁ ⟨d, some v₂, cid, none, none⟩ = some st₂ ∧
      (st₂.gridMap cid).bind (fun p => p d) = some v₂ := by
  have h1 : processRow cfg Schema.cell st ⟨d, some v₁, cid, none, none⟩ =
      some ⟨addDate st.dateSet d, setCell st.gridMap cid (setDate per d v₁)⟩ := by
    unfold processRow
    rw [if_neg hd]
    dsimp only
    rw [hgm]
  have hgm1 : (setCell st.gridMap cid (setDate per d v₁)) cid = some (setDate per d v₁) := by
    unfold setCell
    rw [if_pos rfl]
  have h2 : processRow cfg Schema.cell
      ⟨addDate st.dateSet d, setCell st.gridMap cid (setDate per d v₁)⟩
      ⟨d, some v₂, cid, none, none⟩ =
      some ⟨addDate (addDate st.dateSet d) d,
        setCell (setCell st.gridMap cid (setDate per d v₁)) cid
          (setDate (setDate per d v₁) d v₂)⟩ := by
    unfold processRow
    rw [if_neg hd]
    dsimp only
    rw [hgm1]
  refine ⟨_, _, h1, h2, ?_⟩
  show ((setCell (setCell st.gridMap cid (setDate per d v₁)) cid
      (setDate (setDate per d v₁) d v₂)) cid).bind (fun p => p d) = some v₂
  unfold setCell
  rw [if_pos rfl]
  show (setDate (setDate per d v₁) d v₂) d = some v₂
  unfold setDate
  rw [if_pos rfl]

/-- Witness for C10: ingesting 5 then 7 for the same cell and date leaves 7. -/
theorem cell_schema_last_write_wins_witness :
    ∃ st₁ st₂,
      processRow pCfg Schema.cell cSt ⟨"d1", some 5, cellId 0 0, none, none⟩ = some st₁ ∧
      processRow pCfg Schema.cell st₁ ⟨"d1", some 7, cellId 0 0, none, none⟩ = some st₂ ∧
      (st₂.gridMap (cellId 0 0)).bind (fun p => p ("d1")) = some 7 :=
  cell_schema_last_write_wins pCfg cSt (cellId 0 0) ("d1") 5 7 (fun _ => none) rfl
    (by decide)

theorem nlat_pCfg : nlat pCfg = 1 := by
  show numSteps 0 1 1 = 1
  unfold numSteps
  rw [show ((1 : ℚ) - eps - 0) / 1 = 1 - eps by ring]
  rw [show (⌈(1 : ℚ) - eps⌉ : ℤ) = 1 from by
    rw [Int.ceil_eq_iff]
    unfold eps
    norm_num]
  rfl

theorem binPoint_pCfg_origin : binPointToCell pCfg 0 0 = some (cellId 0 0) := by
  unfold binPointToCell
  rw [if_pos (by norm_num [pCfg])]
  have hfla : (⌊((0 : ℚ) - pCfg.latMin) / pCfg.dlat⌋ : ℤ) = 0 := by
    norm_num [pCfg]
  have hflo : (⌊((0 : ℚ) - pCfg.lonMin) / pCfg.dlon⌋ : ℤ) = 0 := by
    norm_num [pCfg]
  rw [hfla, hflo, nlat_pCfg]
  norm_num
  exact cellIdInt_ofNat 0 0

/-- Claim C8: during point-schema ingestion, a new observation `v` landing in
a cell and date already holding an accumulated value `old` replaces it with
the running average `(old + v) / 2`, not the sum. -/
theorem point_merge_running_average (cfg : Config) (st : IngestState)
    (cid d : String) (plat plon : ℚ) (v old : ℚ) (per : PerCell)
    (hbin : binPointToCell cfg plat plon = some cid)
    (hgm : st.gridMap cid = some per) (hold : per d = some old) (hd : d ≠ "") :
    ∃ st', processRow cfg Schema.point st ⟨d, some v, "", some plat, some plon⟩
        = some st' ∧
      (st'.gridMap cid).bind (fun p => p d) = some ((old + v) / 2) := by
  have h1 : processRow cfg Schema.point st ⟨d, some v, "", some plat, some plon⟩ =
      some ⟨addDate st.dateSet d, setCell st.gridMap cid (setDate per d ((old + v) / 2))⟩ := by
    simp only [processRow]
    rw [if_neg hd]
    rw [hbin]
    dsimp only
    rw [hgm]
    dsimp only
    rw [hold]
  refine ⟨_, h1, ?_⟩
  show ((setCell st.gridMap cid (setDate per d ((old + v) / 2))) cid).bind (fun p => p d)
      = some ((old + v) / 2)
  unfold setCell
  rw [if_pos rfl]
  show (setDate per d ((old + v) / 2)) d = some ((old + v) / 2)
  unfold setDate
  rw [if_pos rfl]

/-- Witness for C8: a cell holding 1.0 receives 2.0 and stores `(1+2)/2 = 1.5`. -/
theorem point_merge_running_average_witness :
    ∃ st', processRow pCfg Schema.point pSt1 ⟨"d1", some 2, "", some 0, some 0⟩
        = some st' ∧
      (st'.gridMap (cellId 0 0)).bind (fun p => p ("d1")) = some ((1 + 2) / 2) :=
  point_merge_running_average pCfg pSt1 (cellId 0 0) ("d1") 0 0 2 1
    (fun d => if d = "d1" then some 1 else none) binPoint_pCfg_origin rfl rfl (by decide)

theorem nlat_cfg4 : nlat cfg4 = 1 := nlat_pCfg

theorem nlon_cfg4 : nlon cfg4 = 2 := by
  show numSteps 0 2 1 = 2
  exact nlat_wCfg

theorem buildGrid_cfg4_ids :
    (buildGrid cfg4).map Cell.id = [cellId 0 0, cellId 0 1] := by
  unfold buildGrid
  rw [nlat_cfg4, nlon_cfg4]
  rfl

theorem binPoint_cfg4_edge : binPointToCell cfg4 0 2 = some (cellId 0 2) := by
  unfold binPointToCell
  rw [if_pos (by norm_num [cfg4])]
  have hfla : (⌊((0 : ℚ) - cfg4.latMin) / cfg4.dlat⌋ : ℤ) = 0 := by
    norm_num [cfg4]
  have hflo : (⌊((2 : ℚ) - cfg4.lonMin) / cfg4.dlon⌋ : ℤ) = 2 := by
    norm_num [cfg4]
  rw [hfla, hflo, nlat_cfg4]
  norm_num
  exact cellIdInt_ofNat 0 2

/-- Claim C4: evaluation at the failing input.  Over the 1×2 grid `cfg4`
(longitude extent an exact multiple of the step), the in-bounding-box point
`(lat, lon) = (0, 2)` bins to the unclamped column 2, whose id `r0c2` is
absent from the grid, and ingestion of that row does not proceed: the handler
reads `gridMap.get('r0c2')`, which is `undefined`, and `per.has(d)` throws, so
the run aborts (modelled as `none`) instead of silently dropping the row.  A
point with a coordinate outside the bounding box — `(0, 3)` — is, by
contrast, dropped before binning and ingestion completes. -/
theorem point_out_of_grid_throws :
    binPointToCell cfg4 0 2 = some (cellId 0 2) ∧
    (cellId 0 2) ∉ (buildGrid cfg4).map Cell.id ∧
    loadCsv cfg4 ["date", "lat", "lon", "value"]
      [⟨"d1", some 1, "", some 0, some 2⟩] = none ∧
    binPointToCell cfg4 0 3 = none ∧
    loadOk cfg4 ["date", "lat", "lon", "value"]
      [⟨"d1", some 1, "", some 0, some 3⟩] = true := by
  have hnot : (cellId 0 2) ∉ (buildGrid cfg4).map Cell.id := by
    rw [buildGrid_cfg4_ids]
    decide
  have hinit : initGridMap (buildGrid cfg4) (cellId 0 2) = none := by
    unfold initGridMap
    rw [if_neg hnot]
  have hdet : detectSchema ["date", "lat", "lon", "value"] = Schema.point := rfl
  have hbin3 : binPointToCell cfg4 0 3 = none := by
    unfold binPointToCell
    rw [if_neg (by norm_num [cfg4])]
  refine ⟨binPoint_cfg4_edge, hnot, ?_, hbin3, ?_⟩
  · unfold loadCsv
    rw [hdet]
    unfold runRows
    have hp : processRow cfg4 Schema.point ⟨[], initGridMap (buildGrid cfg4)⟩
        ⟨"d1", some 1, "", some 0, some 2⟩ = none := by
      simp only [processRow]
      rw [if_neg (show ¬("d1" = "") by decide)]
      rw [binPoint_cfg4_edge]
      dsimp only
      rw [hinit]
    rw [hp]
  · unfold loadOk loadCsv
    rw [hdet]
    unfold runRows
    have hp : processRow cfg4 Schema.point ⟨[], initGridMap (buildGrid cfg4)⟩
        ⟨"d1", some 1, "", some 0, some 3⟩ =
        some ⟨addDate [] "d1", initGridMap (buildGrid cfg4)⟩ := by
      simp only [processRow]
      rw [if_neg (show ¬("d1" = "") by decide)]
      rw [hbin3]
    rw [hp]
    rfl


theorem processRow_dateSet (cfg : Config) (schema : Schema) (hs : schema ≠ Schema.unknown)
    (st st₁ : IngestState) (row : Row)
    (hp : processRow cfg schema st row = some st₁) :
    st₁.dateSet = if row.date = "" then st.dateSet else addDate st.dateSet row.date := by
  cases schema with
  | unknown => exact absurd rfl hs
  | cell =>
    simp only [processRow] at hp
    by_cases hdate : row.date = ""
    · rw [if_pos hdate] at hp
      cases hp
      rw [if_pos hdate]
    · rw [if_neg hdate] at hp
      rw [if_neg hdate]
      cases hv : row.value with
      | none =>
        rw [hv] at hp
        cases hp
        rfl
      | some v =>
        rw [hv] at hp
        dsimp only at hp
        cases hgm : st.gridMap row.cell_id with
        | some per =>
          rw [hgm] at hp
          cases hp
          rfl
        | none =>
          rw [hgm] at hp
          cases hp
          rfl
  | point =>
    simp only [processRow] at hp
    by_cases hdate : row.date = ""
    · rw [if_pos hdate] at hp
      cases hp
      rw [if_pos hdate]
    · rw [if_neg hdate] at hp
      rw [if_neg hdate]
      cases hv : row.value with
      | none =>
        rw [hv] at hp
        cases hp
        rfl
      | some v =>
        rw [hv] at hp
        dsimp only at hp
        cases hlat : row.lat with
        | none =>
          rw [hlat] at hp
          cases hlon : row.lon with
          | none =>
            rw [hlon] at hp
            cases hp
            rfl
          | some plon =>
            rw [hlon] at hp
            cases hp
            rfl
        | some plat =>
          rw [hlat] at hp
          cases hlon : row.lon with
          | none =>
            rw [hlon] at hp
            cases hp
            rfl
          | some plon =>
            rw [hlon] at hp
            dsimp only at hp
            cases hbin : binPointToCell cfg plat plon with
            | none =>
              rw [hbin] at hp
              cases hp
              rfl
            | some cid =>
              rw [hbin] at hp
              dsimp only at hp
              cases hgm : st.gridMap cid with
              | none =>
                rw [hgm] at hp
                exact absurd hp (by simp)
              | some per =>
                rw [hgm] at hp
                dsimp only at hp
                cases hp
                rfl

theorem runRows_dateSet_mem (cfg : Config) (schema : Schema)
    (hs : schema ≠ Schema.unknown) :
    ∀ (rows : List Row) (st st' : IngestState),
      runRows cfg schema st rows = some st' →
      ∀ d, d ∈ st'.dateSet ↔ (d ∈ st.dateSet ∨ (d ≠ "" ∧ ∃ r ∈ rows, r.date = d)) := by
  intro rows
  induction rows with
  | nil =>
    intro st st' h d
    unfold runRows at h
    cases h
    simp
  | cons row rest ih =>
    intro st st' h d
    unfold runRows at h
    cases hp : processRow cfg schema st row with
    | none =>
      rw [hp] at h
      exact absurd h (by simp)
    | some st₁ =>
      rw [hp] at h
      rw [ih st₁ st' h d]
      have hds := processRow_dateSet cfg schema hs st st₁ row hp
      by_cases hdate : row.date = ""
      · rw [hds, if_pos hdate]
        constructor
        · rintro (hmem | ⟨hne, r, hr, hrd⟩)
          · exact Or.inl hmem
          · exact Or.inr ⟨hne, r, List.mem_cons_of_mem row hr, hrd⟩
        · rintro (hmem | ⟨hne, r, hr, hrd⟩)
          · exact Or.inl hmem
          · rcases List.mem_cons.1 hr with rfl | hr'
            · exact absurd (hrd.symm.trans hdate) hne
            · exact Or.inr ⟨hne, r, hr', hrd⟩
      · rw [hds, if_neg hdate]
        unfold addDate
        by_cases hmem : row.date ∈ st.dateSet
        · rw [if_pos hmem]
          constructor
          · rintro (h1 | ⟨hne, r, hr, hrd⟩)
            · exact Or.inl h1
            · exact Or.inr ⟨hne, r, List.mem_cons_of_mem row hr, hrd⟩
          · rintro (h1 | ⟨hne, r, hr, hrd⟩)
            · exact Or.inl h1
            · rcases List.mem_cons.1 hr with rfl | hr'
              · exact Or.inl (hrd ▸ hmem)
              · exact Or.inr ⟨hne, r, hr', hrd⟩
        · rw [if_neg hmem]
          constructor
          · rintro (h1 | ⟨hne, r, hr, hrd⟩)
            · rcases List.mem_append.1 h1 with h2 | h2
              · exact Or.inl h2
              · have hdd : d = row.date := by simpa using h2
                exact Or.inr ⟨by rw [hdd]; exact hdate, row, List.mem_cons_self row rest,
                  hdd.symm⟩
            · exact Or.inr ⟨hne, r, List.mem_cons_of_mem row hr, hrd⟩
          · rintro (h1 | ⟨hne, r, hr, hrd⟩)
            · exact Or.inl (List.mem_append.2 (Or.inl h1))
            · rcases List.mem_cons.1 hr with rfl | hr'
              · exact Or.inl (List.mem_append.2 (Or.inr (by simp [hrd])))
              · exact Or.inr ⟨hne, r, hr', hrd⟩

theorem mem_sortDates (ds : List String) (d : String) :
    d ∈ sortDates ds ↔ d ∈ ds :=
  (List.perm_insertionSort _ ds).mem_iff

theorem charListLe_total : ∀ a b : List Char,
    charListLe a b = true ∨ charListLe b a = true := by
  intro a
  induction a with
  | nil =>
    intro b
    left
    cases b <;> rfl
  | cons x xs ih =>
    intro b
    cases b with
    | nil =>
      right
      rfl
    | cons y ys =>
      rcases Nat.lt_trichotomy x.toNat y.toNat with h | h | h
      · left
        unfold charListLe
        rw [if_pos h]
      · have hxy : ¬ x.toNat < y.toNat := by omega
        have hyx : ¬ y.toNat < x.toNat := by omega
        unfold charListLe
        simp only [if_neg hxy, if_neg hyx]
        exact ih ys
      · right
        unfold charListLe
        rw [if_pos h]

theorem charListLe_trans : ∀ a b c : List Char,
    charListLe a b = true → charListLe b c = true → charListLe a c = true := by
  intro a
  induction a with
  | nil =>
    intro b c _ _
    cases c <;> rfl
  | cons x xs ih =>
    intro b c hab hbc
    cases b with
    | nil => exact absurd hab (by simp [charListLe])
    | cons y ys =>
      cases c with
      | nil => exact absurd hbc (by simp [charListLe])
      | cons z zs =>
        unfold charListLe at hab hbc ⊢
        by_cases hxy : x.toNat < y.toNat
        · by_cases hyz : y.toNat < z.toNat
          · rw [if_pos (by omega)]
          · by_cases hzy : z.toNat < y.toNat
            · rw [if_neg hyz, if_pos hzy] at hbc
              exact absurd hbc (by simp)
            · rw [if_pos (show x.toNat < z.toNat by omega)]
        · by_cases hyx : y.toNat < x.toNat
          · rw [if_neg hxy, if_pos hyx] at hab
            exact absurd hab (by simp)
          · by_cases hyz : y.toNat < z.toNat
            · rw [if_pos (show x.toNat < z.toNat by omega)]
            · by_cases hzy : z.toNat < y.toNat
              · rw [if_neg hyz, if_pos hzy] at hbc
                exact absurd hbc (by simp)
              · rw [if_neg (show ¬ x.toNat < z.toNat by omega),
                  if_neg (show ¬ z.toNat < x.toNat by omega)]
                rw [if_neg hxy, if_neg hyx] at hab
                rw [if_neg hyz, if_neg hzy] at hbc
                exact ih ys zs hab hbc

theorem strLe_total (a b : String) : strLe a b = true ∨ strLe b a = true :=
  charListLe_total a.data b.data

theorem strLe_trans (a b c : String) :
    strLe a b = true → strLe b c = true → strLe a c = true :=
  charListLe_trans a.data b.data c.data

theorem sortDates_sorted (ds : List String) :
    (sortDates ds).Sorted fun a b => strLe a b = true := by
  haveI : IsTotal String fun a b => strLe a b = true := ⟨strLe_total⟩
  haveI : IsTrans String fun a b => strLe a b = true :=
    ⟨fun a b c => strLe_trans a b c⟩
  exact List.sorted_insertionSort _ ds

theorem addDate_nodup (ds : List String) (d : String) (h : ds.Nodup) :
    (addDate ds d).Nodup := by
  unfold addDate
  split
  · exact h
  · rename_i hmem
    rw [List.nodup_append]
    refine ⟨h, List.nodup_singleton d, ?_⟩
    intro a ha hb
    rw [List.mem_singleton] at hb
    exact hmem (hb ▸ ha)

theorem runRows_dateSet_nodup (cfg : Config) (schema : Schema)
    (hs : schema ≠ Schema.unknown) :
    ∀ (rows : List Row) (st st' : IngestState),
      runRows cfg schema st rows = some st' → st.dateSet.Nodup → st'.dateSet.Nodup := by
  intro rows
  induction rows with
  | nil =>
    intro st st' h hn
    unfold runRows at h
    cases h
    exact hn
  | cons row rest ih =>
    intro st st' h hn
    unfold runRows at h
    cases hp : processRow cfg schema st row with
    | none =>
      rw [hp] at h
      exact absurd h (by simp)
    | some st₁ =>
      rw [hp] at h
      refine ih st₁ st' h ?_
      rw [processRow_dateSet cfg schema hs st st₁ row hp]
      split
      · exact hn
      · exact addDate_nodup _ _ hn

/-- Claim C5 (amended): when the schema is known and ingestion completes, the
date index is the sorted deduplicated sequence of the distinct date strings of
ALL rows with a non-empty date — including rows subsequently dropped for a
non-finite value, non-finite coordinates, an unknown cell id, or an
out-of-grid point — because `dateSet.add(d)` runs before those checks. -/
theorem date_index_from_all_rows (cfg : Config) (headers : List String)
    (rows : List Row) (hs : detectSchema headers ≠ Schema.unknown)
    (hok : loadOk cfg headers rows = true) :
    (∀ d, d ∈ loadDates cfg headers rows ↔ (d ≠ "" ∧ ∃ r ∈ rows, r.date = d)) ∧
    ((loadDates cfg headers rows).Sorted fun a b => strLe a b = true) ∧
    (loadDates cfg headers rows).Nodup := by
  unfold loadOk at hok
  rcases Option.isSome_iff_exists.1 hok with ⟨st, hst⟩
  refine ⟨?_, sortDates_sorted _, ?_⟩
  · intro d
    unfold loadDates
    rw [hst]
    rw [show ((some st).map IngestState.dateSet).getD [] = st.dateSet from rfl]
    rw [mem_sortDates]
    have h := runRows_dateSet_mem cfg _ hs rows _ st hst d
    simpa using h
  · unfold loadDates
    rw [hst]
    rw [show ((some st).map IngestState.dateSet).getD [] = st.dateSet from rfl]
    refine (List.perm_insertionSort _ _).nodup_iff.2 ?_
    exact runRows_dateSet_nodup cfg _ hs rows _ st hst List.nodup_nil

/-- Claim C5, counterexample: a cell-schema row whose value is not finite is
dropped — nothing is stored for `(r0c0, 2024-01-01)` — yet its date still
appears in the date index, because `dateSet.add(d)` runs before the
`Number.isFinite(v)` check. -/
theorem date_index_counterexample :
    loadDates wCfg ["date", "cell_id", "value"]
      [⟨"2024-01-01", none, cellId 0 0, none, none⟩] = ["2024-01-01"] ∧
    loadValue wCfg ["date", "cell_id", "value"]
      [⟨"2024-01-01", none, cellId 0 0, none, none⟩] (cellId 0 0) ("2024-01-01")
      = none := by
  have hids : (buildGrid wCfg).map Cell.id
      = [cellId 0 0, cellId 0 1, cellId 1 0, cellId 1 1] := by
    unfold buildGrid
    rw [nlat_wCfg, nlon_wCfg]
    rfl
  have hinit : initGridMap (buildGrid wCfg) (cellId 0 0) = some (fun _ => none) := by
    unfold initGridMap
    rw [hids]
    rw [if_pos (by decide)]
  have hrun : loadCsv wCfg ["date", "cell_id", "value"]
      [⟨"2024-01-01", none, cellId 0 0, none, none⟩]
      = some ⟨["2024-01-01"], initGridMap (buildGrid wCfg)⟩ := rfl
  constructor
  · unfold loadDates
    rw [hrun]
    rfl
  · unfold loadValue
    rw [hrun]
    rw [show (some (⟨["2024-01-01"], initGridMap (buildGrid wCfg)⟩ : IngestState)).bind
        (fun st => (st.gridMap (cellId 0 0)).bind fun per => per ("2024-01-01"))
        = (initGridMap (buildGrid wCfg) (cellId 0 0)).bind
            (fun per => per ("2024-01-01")) from rfl]
    rw [hinit]
    rfl

/-- Witness for the amended C5 theorem: a known-schema stream of one row with
a non-finite value completes, and its date index holds exactly that row's
date. -/
theorem date_index_from_all_rows_witness :
    (∀ d, d ∈ loadDates wCfg ["date", "cell_id", "value"]
        [⟨"d1", none, "", none, none⟩] ↔
      (d ≠ "" ∧ ∃ r ∈ [(⟨"d1", none, "", none, none⟩ : Row)], r.date = d)) ∧
    ((loadDates wCfg ["date", "cell_id", "value"]
        [⟨"d1", none, "", none, none⟩]).Sorted fun a b => strLe a b = true) ∧
    (loadDates wCfg ["date", "cell_id", "value"]
        [⟨"d1", none, "", none, none⟩]).Nodup :=
  date_index_from_all_rows wCfg ["date", "cell_id", "value"]
    [⟨"d1", none, "", none, none⟩] (by decide) rfl


theorem setCell_same (gm : GridMap) (cid : String) (per : PerCell) :
    setCell gm cid per cid = some per := by
  unfold setCell
  rw [if_pos rfl]

theorem setDate_same (per : PerCell) (d : String) (v : ℚ) :
    setDate per d v d = some v := by
  unfold setDate
  rw [if_pos rfl]

theorem nlon_pCfg : nlon pCfg = 1 := nlat_pCfg

theorem buildGrid_pCfg_ids : (buildGrid pCfg).map Cell.id = [cellId 0 0] := by
  unfold buildGrid
  rw [nlat_pCfg, nlon_pCfg]
  rfl

/-- The full two-row pipeline of the running-average merge: ingesting the
point values 1.0 then 2.0 into the same cell and date through `loadCsv`
stores `(1 + 2) / 2 = 1.5`, not the sum. -/
theorem point_running_average_pipeline :
    loadValue pCfg ["date", "lat", "lon", "value"]
      [⟨"d1", some 1, "", some 0, some 0⟩, ⟨"d1", some 2, "", some 0, some 0⟩]
      (cellId 0 0) ("d1") = some ((1 + 2) / 2) ∧ ((1 + 2 : ℚ) / 2 = 3 / 2) := by
  have hinit : initGridMap (buildGrid pCfg) (cellId 0 0) = some (fun _ => none) := by
    unfold initGridMap
    rw [buildGrid_pCfg_ids]
    rw [if_pos (by decide)]
  have hp1 : processRow pCfg Schema.point ⟨[], initGridMap (buildGrid pCfg)⟩
      ⟨"d1", some 1, "", some 0, some 0⟩ =
      some ⟨addDate [] ("d1"), setCell (initGridMap (buildGrid pCfg)) (cellId 0 0)
        (setDate (fun _ => none) ("d1") 1)⟩ := by
    simp only [processRow]
    rw [if_neg (show ¬("d1" = "") by decide)]
    rw [binPoint_pCfg_origin]
    dsimp only
    rw [hinit]
  have hgm1 : (setCell (initGridMap (buildGrid pCfg)) (cellId 0 0)
      (setDate (fun _ => none) ("d1") 1)) (cellId 0 0)
      = some (setDate (fun _ => none) ("d1") 1) := by
    unfold setCell
    rw [if_pos rfl]
  have hold1 : (setDate (fun _ => none) ("d1") 1) ("d1") = some 1 := by
    unfold setDate
    rw [if_pos rfl]
  have hp2 : processRow pCfg Schema.point
      ⟨addDate [] ("d1"), setCell (initGridMap (buildGrid pCfg)) (cellId 0 0)
        (setDate (fun _ => none) ("d1") 1)⟩
      ⟨"d1", some 2, "", some 0, some 0⟩ =
      some ⟨addDate (addDate [] ("d1")) ("d1"),
        setCell (setCell (initGridMap (buildGrid pCfg)) (cellId 0 0)
            (setDate (fun _ => none) ("d1") 1)) (cellId 0 0)
          (setDate (setDate (fun _ => none) ("d1") 1) ("d1") ((1 + 2) / 2))⟩ := by
    simp only [processRow]
    rw [if_neg (show ¬("d1" = "") by decide)]
    rw [binPoint_pCfg_origin]
    dsimp only
    rw [hgm1]
    dsimp only
    rw [hold1]
  refine ⟨?_, by norm_num⟩
  unfold loadValue loadCsv
  rw [show detectSchema ["date", "lat", "lon", "value"] = Schema.point from rfl]
  unfold runRows
  rw [hp1]
  unfold runRows
  rw [hp2]
  dsimp only
  unfold runRows
  rw [Option.some_bind]
  dsimp only
  rw [setCell_same]
  rw [Option.some_bind]
  rw [setDate_same]
end GirdMap

